import Mathlib

/-!
Verification of the `sealed` crate core (`src/sealed.rs`): a typed
authenticated-encryption envelope.  The cryptographic primitives
(`rust_sodium` crypto box) and the serialization library (`bincode`) are
external collaborators of the crate; they are embedded abstractly as a
`BoxPrimitives` record and a `Codec` record, with their contracts taken
as pointwise hypotheses where a theorem needs them.  The logic of
`sealed.rs` itself is translated definition by definition.
-/

/-- Byte sequences.  Bytes are natural numbers below 256 where it matters;
length invariants are carried as hypotheses. -/
abbrev Bytes := List Nat

/-- Error type standing for the boxed `bincode::ErrorKind` of the external
serialization library. -/
inductive BincodeErr where
  | unrepresentable
  | eof
  | trailing
  | badTag
deriving DecidableEq

/-- Abstract interface of the external `rust_sodium::crypto::box_`
primitives used by `sealed.rs`: `precompute`, `SecretKey::public_key`,
`seal_detached_precomputed` (in place, returning the detached tag, modelled
as returning the ciphertext and the tag) and `open_detached_precomputed`
(in place, modelled as returning the recovered plaintext on success). -/
structure BoxPrimitives where
  precompute : Bytes → Bytes → Bytes
  public_key : Bytes → Bytes
  seal_detached : Bytes → Bytes → Bytes → Bytes × Bytes
  open_detached : Bytes → Bytes → Bytes → Bytes → Option Bytes

/-- Abstract interface of the external big-endian `bincode` codec
(`serialize_be` and `deserialize_be` in `sealed.rs` delegate to it). -/
structure Codec (T : Type) where
  serialize : T → Except BincodeErr Bytes
  deserialize : Bytes → Except BincodeErr T

/-- The `Sealed` struct of `sealed.rs`: sender public key, nonce, detached
mac and ciphertext.  The `_spook : PhantomData<T>` field is compile-time
only and holds no data, so it has no Lean counterpart. -/
structure Sealed where
  source_pk : Bytes
  nonce : Bytes
  mac : Bytes
  cyphertext : Bytes
deriving DecidableEq

/-- The `Opened` struct of `sealed.rs`: a decrypted byte buffer. -/
structure Opened where
  plaintext : Bytes
deriving DecidableEq

/-- `xor_bytes` of `sealed.rs`: byte-wise xor of two 32-byte arrays,
written there as an in-place loop over the zipped iterators. -/
def xor_bytes (a : Bytes) (b : Bytes) : Bytes :=
  List.zipWith (fun x y => x ^^^ y) a b

/-- `send_sk` of `sealed.rs`: the key used when sending from `source_pk`. -/
def send_sk (shared_secret : Bytes) (source_pk : Bytes) : Bytes :=
  xor_bytes shared_secret source_pk

/-- `Sealed::open_precomputed`. -/
def Sealed.open_precomputed (P : BoxPrimitives) (s : Sealed)
    (shared_secret : Bytes) : Option Opened :=
  let shared_send_secret := send_sk shared_secret s.source_pk
  match P.open_detached s.cyphertext s.mac s.nonce shared_send_secret with
  | none => none
  | some plaintext => some ⟨plaintext⟩

/-- `Sealed::open` (named `openWith` because `open` is a Lean keyword). -/
def Sealed.openWith (P : BoxPrimitives) (s : Sealed)
    (destination_sk : Bytes) : Option Opened :=
  Sealed.open_precomputed P s (P.precompute s.source_pk destination_sk)

/-- `Sealed::seal_precomputed`.  The nonce, drawn inside the Rust function
from the secure random source `gen_nonce`, is an explicit argument here. -/
def Sealed.seal_precomputed {T : Type} (P : BoxPrimitives) (C : Codec T)
    (source_pk : Bytes) (shared_secret : Bytes) (nonce : Bytes)
    (plaintext : T) : Except BincodeErr Sealed :=
  match C.serialize plaintext with
  | .error e => .error e
  | .ok bs =>
    let shared_send_secret := send_sk shared_secret source_pk
    let r := P.seal_detached bs nonce shared_send_secret
    .ok ⟨source_pk, nonce, r.2, r.1⟩

/-- `Sealed::seal`. -/
def Sealed.seal {T : Type} (P : BoxPrimitives) (C : Codec T)
    (destination_pk : Bytes) (source_sk : Bytes) (nonce : Bytes)
    (plaintext : T) : Except BincodeErr Sealed :=
  Sealed.seal_precomputed P C (P.public_key source_sk)
    (P.precompute destination_pk source_sk) nonce plaintext

/-- `Opened::deserialize`. -/
def Opened.deserialize {T : Type} (C : Codec T) (o : Opened) :
    Except BincodeErr T :=
  C.deserialize o.plaintext

/-- `Opened::drop`: overwrite every byte of the plaintext buffer with
zero, modelled as returning the buffer in its post-drop state. -/
def Opened.drop (o : Opened) : Opened :=
  ⟨o.plaintext.map (fun _ => 0)⟩

/-- Big-endian 8-byte encoding of a length, as the fixed-int big-endian
`bincode` configuration writes a `u64`. -/
def be64 (n : Nat) : Bytes :=
  [n / 2 ^ 56 % 256, n / 2 ^ 48 % 256, n / 2 ^ 40 % 256, n / 2 ^ 32 % 256,
   n / 2 ^ 24 % 256, n / 2 ^ 16 % 256, n / 2 ^ 8 % 256, n % 256]

/-- Big-endian decoding of a length field. -/
def be64dec (bs : Bytes) : Nat :=
  bs.foldl (fun acc b => acc * 256 + b) 0

/-- Modelled from the spec: the external canonical codec (the big-endian
`bincode` configuration, not part of `src/`) on a byte-sequence payload.
Variable-length sequences are length-prefixed; a value whose bytes are not
representable fails with a serialization error. -/
def serializeBytesBE (v : List Nat) : Except BincodeErr Bytes :=
  if v.all (fun b => b < 256) then .ok (be64 v.length ++ v)
  else .error .unrepresentable

/-- Modelled from the spec: strict decoding of a length-prefixed byte
sequence.  A truncated input or an out-of-range length prefix is an `eof`
error, unexpected trailing bytes are a `trailing` error; no input is
silently truncated or partially accepted. -/
def deserializeBytesBE (input : Bytes) : Except BincodeErr (List Nat) :=
  if input.length < 8 then .error .eof
  else
    let n := be64dec (input.take 8)
    let rest := input.drop 8
    if rest.length < n then .error .eof
    else if n < rest.length then .error .trailing
    else .ok rest

/-- The modelled codec packaged as a `Codec`. -/
def byteCodec : Codec (List Nat) :=
  ⟨serializeBytesBE, deserializeBytesBE⟩

/-- Modelled from the spec: strict decoding of a tagged sum (an optional
byte sequence).  A tag other than the declared ones is a `badTag` decode
error. -/
def deserializeOptBE (input : Bytes) : Except BincodeErr (Option (List Nat)) :=
  match input with
  | [] => .error .eof
  | t :: rest =>
    if t = 0 then (if rest.isEmpty then .ok none else .error .trailing)
    else if t = 1 then (deserializeBytesBE rest).map some
    else .error .badTag

/-- Modelled from the spec: the external codec serialization of the
envelope itself (the derived `Serialize` instance of `Sealed` fed to the
big-endian `bincode` configuration; neither is in `src/`).  Fields are
emitted in declaration order; the fixed-width fields as raw bytes; the
variable-length `cyphertext` with its length prefix; the `PhantomData`
type tag contributes no bytes. -/
def Sealed.serializeWire (e : Sealed) : Bytes :=
  e.source_pk ++ e.nonce ++ e.mac ++ (be64 e.cyphertext.length ++ e.cyphertext)

/-- The wire form the claim describes: the four fields concatenated with
no framing at all. -/
def Sealed.claimedWire (e : Sealed) : Bytes :=
  e.source_pk ++ e.nonce ++ e.mac ++ e.cyphertext

/-- A concrete instantiation of the box primitives used to witness the
parametric theorems: a toy xor stream cipher with a checksum tag, with the
public key of a secret key taken to be the key itself so that the
Diffie-Hellman symmetry contract holds. -/
def toyStream (nonce : Bytes) (key : Bytes) (i : Nat) : Nat :=
  key.getD (i % 32) 0 ^^^ nonce.getD (i % 24) 0

/-- Toy in-place stream transformation (its own inverse). -/
def toyEncrypt (m : Bytes) (nonce : Bytes) (key : Bytes) : Bytes :=
  m.mapIdx (fun i b => b ^^^ toyStream nonce key i)

/-- Toy detached tag. -/
def toyMac (c : Bytes) (nonce : Bytes) (key : Bytes) : Bytes :=
  [(c.sum + nonce.sum + key.sum) % 256]

/-- The toy primitives packaged as `BoxPrimitives`. -/
def toyBox : BoxPrimitives where
  precompute := fun pk sk => xor_bytes pk sk
  public_key := fun sk => sk
  seal_detached := fun m nonce key =>
    (toyEncrypt m nonce key, toyMac (toyEncrypt m nonce key) nonce key)
  open_detached := fun c mac nonce key =>
    if mac = toyMac c nonce key then some (toyEncrypt c nonce key) else none

/-- Concrete 32-byte destination secret key for witnesses. -/
def skD0 : Bytes := (List.range 32).map (fun i => i + 1)

/-- Concrete 32-byte source secret key for witnesses. -/
def skS0 : Bytes := (List.range 32).map (fun i => 2 * i + 3)

/-- A second concrete 32-byte public key, distinct from `skS0`. -/
def pkB0 : Bytes := (List.range 32).map (fun i => i + 2)

/-- Concrete 24-byte nonce for witnesses. -/
def nonce0 : Bytes := (List.range 24).map (fun i => i + 5)

/-- Concrete payload for witnesses. -/
def v0 : List Nat := [10, 20, 30]

/-- Concrete envelope with the correct field widths, used to exhibit the
length framing of the wire form. -/
def e6 : Sealed :=
  ⟨List.replicate 32 1, List.replicate 24 2, List.replicate 16 3, [7]⟩

/-- The big-endian length field decodes back to the length it encodes,
for lengths below 2 to the 64. -/
theorem be64dec_be64 (n : Nat) (h : n < 2 ^ 64) : be64dec (be64 n) = n := by
  simp [be64, be64dec]
  omega

/-- The big-endian length field is 8 bytes wide. -/
theorem be64_length (n : Nat) : (be64 n).length = 8 := by
  simp [be64]

/-- C3: destroying an `Opened` value overwrites every byte of its
plaintext buffer with zero: the post-drop buffer is all zeros, of the same
length as the original. -/
theorem opened_drop_zeroizes (o : Opened) :
    (Opened.drop o).plaintext = List.replicate o.plaintext.length 0 := by
  simp [Opened.drop]

/-- C4: when tag verification fails during open (for any underlying
reason), `open` returns the single undifferentiated absent result `none`:
no failure detail and no partial plaintext reach the caller. -/
theorem open_uniform_failure (P : BoxPrimitives) (e : Sealed)
    (destination_sk : Bytes)
    (hfail : P.open_detached e.cyphertext e.mac e.nonce
      (send_sk (P.precompute e.source_pk destination_sk) e.source_pk) = none) :
    Sealed.openWith P e destination_sk = none := by
  simp [Sealed.openWith, Sealed.open_precomputed, hfail]

/-- C4 witness: a concrete envelope whose tag does not verify opens to
`none`. -/
theorem open_uniform_failure_witness :
    Sealed.openWith toyBox ⟨skS0, nonce0, [0], [1, 2, 3]⟩ skD0 = none :=
  open_uniform_failure toyBox ⟨skS0, nonce0, [0], [1, 2, 3]⟩ skD0 (by decide)

/-- C5: when canonical encoding of the plaintext fails, both `seal` and
`seal_precomputed` return the serialization error and produce no envelope,
partial or otherwise. -/
theorem seal_serialization_failure {T : Type} (P : BoxPrimitives)
    (C : Codec T) (source_pk : Bytes) (shared_secret : Bytes)
    (destination_pk : Bytes) (source_sk : Bytes) (nonce : Bytes) (v : T)
    (err : BincodeErr) (hser : C.serialize v = .error err) :
    Sealed.seal_precomputed P C source_pk shared_secret nonce v = .error err
    ∧ Sealed.seal P C destination_pk source_sk nonce v = .error err := by
  constructor <;> simp [Sealed.seal, Sealed.seal_precomputed, hser]

/-- C5 witness: a payload with a byte out of range fails to serialize, and
sealing it returns exactly that error. -/
theorem seal_serialization_failure_witness :
    Sealed.seal_precomputed toyBox byteCodec skS0
        (toyBox.precompute skD0 skS0) nonce0 [300]
      = .error .unrepresentable
    ∧ Sealed.seal toyBox byteCodec skD0 skS0 nonce0 [300]
      = .error .unrepresentable :=
  seal_serialization_failure toyBox byteCodec skS0
    (toyBox.precompute skD0 skS0) skD0 skS0 nonce0 [300] .unrepresentable rfl

/-- C1: round trip.  For a value that canonically encodes successfully,
for valid keypairs (the public keys being the public counterparts of the
secret keys), and with the external primitives meeting their contracts at
the evaluated points (Diffie-Hellman symmetry of `precompute`; the
detached cipher recovering what it sealed under the same key and nonce;
the codec decoding its own encoding), sealing then opening succeeds and
deserializing the `Opened` result yields exactly the original value. -/
theorem seal_open_roundtrip {T : Type} (P : BoxPrimitives) (C : Codec T)
    (skD : Bytes) (skS : Bytes) (nonce : Bytes) (v : T) (bs : Bytes)
    (hser : C.serialize v = .ok bs)
    (hdeser : C.deserialize bs = .ok v)
    (hdh : P.precompute (P.public_key skD) skS
      = P.precompute (P.public_key skS) skD)
    (hbox : P.open_detached
      (P.seal_detached bs nonce
        (send_sk (P.precompute (P.public_key skD) skS) (P.public_key skS))).1
      (P.seal_detached bs nonce
        (send_sk (P.precompute (P.public_key skD) skS) (P.public_key skS))).2
      nonce
      (send_sk (P.precompute (P.public_key skD) skS) (P.public_key skS))
      = some bs) :
    ∃ e o, Sealed.seal P C (P.public_key skD) skS nonce v = .ok e
      ∧ Sealed.openWith P e skD = some o
      ∧ Opened.deserialize C o = .ok v := by
  refine ⟨⟨P.public_key skS, nonce,
      (P.seal_detached bs nonce
        (send_sk (P.precompute (P.public_key skD) skS) (P.public_key skS))).2,
      (P.seal_detached bs nonce
        (send_sk (P.precompute (P.public_key skD) skS) (P.public_key skS))).1⟩,
    ⟨bs⟩, ?_, ?_, ?_⟩
  · simp [Sealed.seal, Sealed.seal_precomputed, hser]
  · simp only [Sealed.openWith, Sealed.open_precomputed, ← hdh, hbox]
  · simpa [Opened.deserialize] using hdeser

/-- C1 witness: the round trip at a concrete payload, concrete keypairs
and a concrete nonce, over the toy primitives and the byte codec. -/
theorem seal_open_roundtrip_witness :
    ∃ e o,
      Sealed.seal toyBox byteCodec (toyBox.public_key skD0) skS0 nonce0 v0
        = .ok e
      ∧ Sealed.openWith toyBox e skD0 = some o
      ∧ Opened.deserialize byteCodec o = .ok v0 :=
  seal_open_roundtrip toyBox byteCodec skD0 skS0 nonce0 v0 (be64 3 ++ v0)
    rfl rfl (by decide) (by decide)

/-- C2: the derived per-direction key is the byte-wise xor of the 32-byte
shared secret and the 32-byte sender public key (stated at every index,
together with the resulting 32-byte width), and both `seal_precomputed`
and `open_precomputed` compute their cipher key as `send_sk` applied to
the source public key carried in the envelope. -/
theorem derive_key_xor_used_by_seal_and_open {T : Type} (P : BoxPrimitives)
    (C : Codec T) (s : Bytes) (pk : Bytes) (nonce : Bytes) (v : T)
    (bs : Bytes) (e : Sealed) (i : Nat)
    (hs : s.length = 32) (hpk : pk.length = 32) (hi : i < 32)
    (hser : C.serialize v = .ok bs) :
    (send_sk s pk).getD i 0 = s.getD i 0 ^^^ pk.getD i 0
    ∧ (send_sk s pk).length = 32
    ∧ Sealed.seal_precomputed P C pk s nonce v
      = .ok ⟨pk, nonce, (P.seal_detached bs nonce (send_sk s pk)).2,
          (P.seal_detached bs nonce (send_sk s pk)).1⟩
    ∧ Sealed.open_precomputed P e s
      = Option.map (fun pt => ⟨pt⟩)
          (P.open_detached e.cyphertext e.mac e.nonce
            (send_sk s e.source_pk)) := by
  have hlen : (send_sk s pk).length = 32 := by
    simp [send_sk, xor_bytes, hs, hpk]
  refine ⟨?_, hlen, ?_, ?_⟩
  · have h1 : i < (send_sk s pk).length := by omega
    have h2 : i < s.length := by omega
    have h3 : i < pk.length := by omega
    rw [List.getD_eq_getElem _ _ h1, List.getD_eq_getElem _ _ h2,
      List.getD_eq_getElem _ _ h3]
    simp [send_sk, xor_bytes]
  · simp [Sealed.seal_precomputed, hser]
  · cases h : P.open_detached e.cyphertext e.mac e.nonce
      (send_sk s e.source_pk) <;>
      simp [Sealed.open_precomputed, h]

/-- C2 witness: the key derivation and its use by seal and open at
concrete inputs. -/
theorem derive_key_xor_used_by_seal_and_open_witness :
    (send_sk skD0 skS0).getD 0 0 = skD0.getD 0 0 ^^^ skS0.getD 0 0
    ∧ (send_sk skD0 skS0).length = 32
    ∧ Sealed.seal_precomputed toyBox byteCodec skS0 skD0 nonce0 v0
      = .ok ⟨skS0, nonce0,
          (toyBox.seal_detached (be64 3 ++ v0) nonce0 (send_sk skD0 skS0)).2,
          (toyBox.seal_detached (be64 3 ++ v0) nonce0 (send_sk skD0 skS0)).1⟩
    ∧ Sealed.open_precomputed toyBox e6 skD0
      = Option.map (fun pt => ⟨pt⟩)
          (toyBox.open_detached e6.cyphertext e6.mac e6.nonce
            (send_sk skD0 e6.source_pk)) :=
  derive_key_xor_used_by_seal_and_open toyBox byteCodec skD0 skS0 nonce0 v0
    (be64 3 ++ v0) e6 0 (by decide) (by decide) (by decide) rfl

/-- C7: the ciphertext of a successfully sealed value has length exactly
the length of the canonically-encoded plaintext (given the in-place
detached cipher contract that sealing preserves length at the evaluated
point): no padding, and the length is a function of the encoding length
alone. -/
theorem ciphertext_length_eq_plaintext_length {T : Type}
    (P : BoxPrimitives) (C : Codec T) (pk : Bytes) (s : Bytes)
    (nonce : Bytes) (v : T) (bs : Bytes)
    (hser : C.serialize v = .ok bs)
    (hlen : (P.seal_detached bs nonce (send_sk s pk)).1.length = bs.length) :
    ∃ e, Sealed.seal_precomputed P C pk s nonce v = .ok e
      ∧ e.cyphertext.length = bs.length := by
  refine ⟨⟨pk, nonce, (P.seal_detached bs nonce (send_sk s pk)).2,
      (P.seal_detached bs nonce (send_sk s pk)).1⟩, ?_, hlen⟩
  simp [Sealed.seal_precomputed, hser]

/-- C7 witness: at a concrete payload the ciphertext length equals the
encoded plaintext length. -/
theorem ciphertext_length_eq_plaintext_length_witness :
    ∃ e, Sealed.seal_precomputed toyBox byteCodec skS0 skD0 nonce0 v0 = .ok e
      ∧ e.cyphertext.length = (be64 3 ++ v0).length :=
  ciphertext_length_eq_plaintext_length toyBox byteCodec skS0 skD0 nonce0 v0
    (be64 3 ++ v0) rfl (by decide)

/-- C8: directional key separation.  For a fixed 32-byte shared secret,
distinct 32-byte public keys derive distinct per-direction keys. -/
theorem derive_key_separation (s : Bytes) (pkA : Bytes) (pkB : Bytes)
    (hs : s.length = 32) (ha : pkA.length = 32) (hb : pkB.length = 32)
    (hne : pkA ≠ pkB) :
    send_sk s pkA ≠ send_sk s pkB := by
  intro h
  apply hne
  apply List.ext_getElem (ha.trans hb.symm)
  intro i hiA hiB
  have h1 : i < (send_sk s pkA).length := by
    simp [send_sk, xor_bytes, List.length_zipWith]; omega
  have hx : s[i] ^^^ pkA[i] = s[i] ^^^ pkB[i] := by
    have h2 := List.getElem_of_eq h h1
    simpa [send_sk, xor_bytes, List.getElem_zipWith] using h2
  exact Nat.xor_right_inj.mp hx

/-- C8 witness: two concrete distinct public keys derive distinct keys
from the same shared secret. -/
theorem derive_key_separation_witness :
    send_sk skD0 skS0 ≠ send_sk skD0 pkB0 :=
  derive_key_separation skD0 skS0 pkB0 (by decide) (by decide)
    (by decide) (by decide)

/-- C10: the precomputed-shared-secret variants are equivalent to the
plain operations: `seal` is `seal_precomputed` applied to the public key
of the source secret key and the precomputed shared secret, and `open` is
`open_precomputed` applied to the shared secret precomputed from the
embedded source public key. -/
theorem precomputed_variants_equiv {T : Type} (P : BoxPrimitives)
    (C : Codec T) (destination_pk : Bytes) (source_sk : Bytes)
    (destination_sk : Bytes) (nonce : Bytes) (v : T) (e : Sealed) :
    Sealed.seal P C destination_pk source_sk nonce v
      = Sealed.seal_precomputed P C (P.public_key source_sk)
          (P.precompute destination_pk source_sk) nonce v
    ∧ Sealed.openWith P e destination_sk
      = Sealed.open_precomputed P e
          (P.precompute e.source_pk destination_sk) :=
  ⟨rfl, rfl⟩

/-- C6 counterexample: the wire form of a concrete well-formed envelope is
not the bare concatenation source_pk, nonce, mac, ciphertext that the
claim describes: the variable-length ciphertext carries an 8-byte length
field. -/
theorem wire_not_bare_concatenation :
    Sealed.serializeWire e6 ≠ Sealed.claimedWire e6 := by decide

/-- C6 amended: the wire form emits the fields in the fixed order
source_pk (32 bytes), nonce (24 bytes), mac (16 bytes), then the
ciphertext preceded by its 8-byte big-endian length field, and nothing
else: the payload type tag contributes zero bytes, so the total width is
80 bytes plus the ciphertext length. -/
theorem wire_layout (e : Sealed) (hpk : e.source_pk.length = 32)
    (hn : e.nonce.length = 24) (hm : e.mac.length = 16) :
    (Sealed.serializeWire e).length = 80 + e.cyphertext.length
    ∧ (Sealed.serializeWire e).take 32 = e.source_pk
    ∧ ((Sealed.serializeWire e).drop 32).take 24 = e.nonce
    ∧ ((Sealed.serializeWire e).drop 56).take 16 = e.mac
    ∧ ((Sealed.serializeWire e).drop 72).take 8 = be64 e.cyphertext.length
    ∧ (Sealed.serializeWire e).drop 80 = e.cyphertext := by
  have h1 : Sealed.serializeWire e
      = e.source_pk ++ (e.nonce ++ (e.mac
          ++ (be64 e.cyphertext.length ++ e.cyphertext))) := by
    simp [Sealed.serializeWire]
  have hd32 : (Sealed.serializeWire e).drop 32
      = e.nonce ++ (e.mac ++ (be64 e.cyphertext.length ++ e.cyphertext)) := by
    rw [h1, List.drop_left' hpk]
  have hd56 : (Sealed.serializeWire e).drop 56
      = e.mac ++ (be64 e.cyphertext.length ++ e.cyphertext) := by
    have h2 : (Sealed.serializeWire e).drop 56
        = ((Sealed.serializeWire e).drop 32).drop 24 := by
      simp [List.drop_drop]
    rw [h2, hd32, List.drop_left' hn]
  have hd72 : (Sealed.serializeWire e).drop 72
      = be64 e.cyphertext.length ++ e.cyphertext := by
    have h2 : (Sealed.serializeWire e).drop 72
        = ((Sealed.serializeWire e).drop 56).drop 16 := by
      simp [List.drop_drop]
    rw [h2, hd56, List.drop_left' hm]
  refine ⟨?_, ?_, ?_, ?_, ?_, ?_⟩
  · simp [Sealed.serializeWire, be64, hpk, hn, hm]
    omega
  · rw [h1, List.take_left' hpk]
  · rw [hd32, List.take_left' hn]
  · rw [hd56, List.take_left' hm]
  · rw [hd72, List.take_left' (be64_length e.cyphertext.length)]
  · have h2 : (Sealed.serializeWire e).drop 80
        = ((Sealed.serializeWire e).drop 72).drop 8 := by
      simp [List.drop_drop]
    rw [h2, hd72, List.drop_left' (be64_length e.cyphertext.length)]

/-- C6 witness: the amended layout at a concrete envelope. -/
theorem wire_layout_witness :
    (Sealed.serializeWire e6).length = 80 + e6.cyphertext.length
    ∧ (Sealed.serializeWire e6).take 32 = e6.source_pk
    ∧ ((Sealed.serializeWire e6).drop 32).take 24 = e6.nonce
    ∧ ((Sealed.serializeWire e6).drop 56).take 16 = e6.mac
    ∧ ((Sealed.serializeWire e6).drop 72).take 8 = be64 e6.cyphertext.length
    ∧ (Sealed.serializeWire e6).drop 80 = e6.cyphertext :=
  wire_layout e6 (by decide) (by decide) (by decide)

/-- C9: canonical decoding is strict and typed.  Under the spec-modelled
codec: an encoding followed by unexpected trailing bytes makes decoding
(including `Opened.deserialize` on such a buffer) return the typed
`trailing` error rather than silently truncating; an input whose length
field claims more bytes than are present returns the typed `eof` error;
and a malformed tag of the tagged-sum decoder returns the typed `badTag`
error.  All decoders are total functions into `Except`, so no input
panics. -/
theorem decode_strict (v : List Nat) (bs : Bytes) (extra : Bytes)
    (input : Bytes) (t : Nat) (rest : Bytes) (o : Opened)
    (hser : byteCodec.serialize v = .ok bs)
    (hextra : extra ≠ [])
    (ho : o.plaintext = bs ++ extra)
    (hv : v.length < 2 ^ 64)
    (hin : 8 ≤ input.length)
    (hrange : input.length - 8 < be64dec (input.take 8))
    (ht : 2 ≤ t) :
    Opened.deserialize byteCodec o = .error .trailing
    ∧ byteCodec.deserialize input = .error .eof
    ∧ deserializeOptBE (t :: rest) = .error .badTag := by
  have hbs : bs = be64 v.length ++ v := by
    by_cases hall : v.all (fun b => decide (b < 256)) = true
    · simp [byteCodec, serializeBytesBE, hall] at hser
      exact hser.symm
    · simp [byteCodec, serializeBytesBE, hall] at hser
  have hex : 0 < extra.length := List.length_pos.mpr hextra
  refine ⟨?_, ?_, ?_⟩
  · rw [Opened.deserialize, ho, hbs, List.append_assoc]
    show deserializeBytesBE (be64 v.length ++ (v ++ extra)) = .error .trailing
    have hlen : (be64 v.length ++ (v ++ extra)).length
        = 8 + (v.length + extra.length) := by
      simp [be64]
      omega
    have hc1 : ¬((be64 v.length ++ (v ++ extra)).length < 8) := by
      rw [hlen]; omega
    rw [deserializeBytesBE.eq_def, if_neg hc1,
      List.take_left' (be64_length v.length),
      List.drop_left' (be64_length v.length), be64dec_be64 _ hv]
    have hc2 : ¬((v ++ extra).length < v.length) := by
      simp
    have hc3 : v.length < (v ++ extra).length := by
      simp; omega
    rw [if_neg hc2, if_pos hc3]
  · have hc1 : ¬(input.length < 8) := by omega
    have hc2 : (input.drop 8).length < be64dec (input.take 8) := by
      simp [List.length_drop]
      omega
    rw [show byteCodec.deserialize input = deserializeBytesBE input from rfl,
      deserializeBytesBE.eq_def, if_neg hc1, if_pos hc2]
  · have h0 : ¬(t = 0) := by omega
    have h1 : ¬(t = 1) := by omega
    simp [deserializeOptBE, h0, h1]

/-- C9 witness: a concrete trailing byte, a concrete truncated input and a
concrete malformed tag each produce their typed decode error. -/
theorem decode_strict_witness :
    Opened.deserialize byteCodec ⟨(be64 1 ++ [1]) ++ [0]⟩ = .error .trailing
    ∧ byteCodec.deserialize (List.replicate 8 1) = .error .eof
    ∧ deserializeOptBE (2 :: []) = .error .badTag :=
  decode_strict [1] (be64 1 ++ [1]) [0] (List.replicate 8 1) 2 []
    ⟨(be64 1 ++ [1]) ++ [0]⟩ rfl (by decide) rfl (by decide) (by decide)
    (by decide) (by decide)
